import Mathlib

/-!
# Verification of the `fruit` IPMI-FRU codec

A shallow embedding of the `fruit` library (an IPMI "FRU" binary inventory
codec: `lib/fruit/utils.py`, `types.py`, `specification.py`, `decoder.py`,
`encoder.py`) together with theorems settling the specification's claims.

Modelling conventions:
* Byte buffers are `List Nat`; unicode strings are `List Nat` of codepoints.
* Python exceptions become `Except` values.  `DecoderError`/`EncoderError`
  carry a structured message; Python `assert` failures and `ValueError`
  (from storing a value ≥ 256 into a `bytearray`) are separate constructors.
* The pluggable `Logger` is modelled by a boolean policy `strict`: the
  standard logger raises `DecoderError` from `Logger.decodererror`
  (`strict = true`), a tolerant logger only records the message and lets
  decoding continue (`strict = false`).  `info`/`warning` calls never affect
  control flow in the source and are not modelled.
* Python's negative-index and permissive-slice semantics are translated
  explicitly at each use site (comments mark the spots).
-/

namespace Fruit

/-! ## `utils.py`: checksum, div8 -/

/-- Embeds `utils.checksum`: `(256 * len(b) - sum(b)) % 256`.  Computed over `Int`
to mirror Python's always-nonnegative `%` even when `sum(b)` would exceed
`256 * len(b)`. -/
def checksum (b : List Nat) : Nat :=
  (((256 * b.length : Int) - (b.sum : Int)) % 256).toNat

/-! ## `utils.py`: the `packed_ascii` codec (`Packed.encode` / `Packed.decode`) -/

namespace Packed

/-- One iteration of the character loop in `Packed.encode`, acting on the
6-bit code of one character.  The state is `(bits, rev)` where `rev` is the
output bytearray in reverse (its head is Python's `ret[-1]`).  The source's
`assert c == 0` in the `bits == 2` branch is implied by the range check that
already rejected codes ≥ 64 before this loop body runs. -/
def encStep (st : Nat × List Nat) (code : Nat) : Nat × List Nat :=
  let bits := st.1
  let rev := st.2
  let rev1 :=
    if 0 < bits then
      match rev with
      | [] => []
      | b :: tl => (b + (code <<< bits) % 256) :: tl
    else rev
  let c1 := if 0 < bits then code >>> (8 - bits) else code
  let rev2 := if bits ≠ 2 then c1 :: rev1 else rev1
  ((bits + 6) % 8, rev2)

/-- The character loop of `Packed.encode` over the whole string (codes are
`ord(ch) - 32`); result bytes are reversed. -/
def encodeRev (s : List Nat) : Nat × List Nat :=
  s.foldl (fun st ch => encStep st (ch - 32)) (0, [])

/-- Embeds `Packed.encode` with the default strict error handler: any character
outside `range(32, 96)` raises `UnicodeEncodeError`. -/
def encode (s : List Nat) : Except Unit (List Nat) :=
  if s.all (fun ch => 32 ≤ ch && ch < 96) then .ok (encodeRev s).2.reverse
  else .error ()

/-- The inner `while bits >= 6` loop of `Packed.decode`: emit a 6-bit
codepoint (+32) while at least 6 bits are buffered. -/
def emit6 : Nat → Nat → List Nat → Nat × Nat × List Nat
  | 0, v, acc => (0, v, acc)
  | 1, v, acc => (1, v, acc)
  | 2, v, acc => (2, v, acc)
  | 3, v, acc => (3, v, acc)
  | 4, v, acc => (4, v, acc)
  | 5, v, acc => (5, v, acc)
  | b + 6, v, acc => emit6 b (v >>> 6) (acc ++ [v % 64 + 32])

/-- The byte loop of `Packed.decode`: accumulate each byte into the bit
buffer and flush complete 6-bit groups. -/
def decGo : List Nat → Nat → Nat → List Nat → List Nat
  | [], _, _, acc => acc
  | b :: rest, bits, bitval, acc =>
    let r := emit6 (bits + 8) (bitval + (b <<< bits)) acc
    decGo rest r.1 r.2.1 r.2.2

/-- Embeds `Packed.decode` (total: any byte sequence decodes). -/
def decode (bs : List Nat) : List Nat :=
  decGo bs 0 0 []

end Packed

/-! ## `utils.py`: the `ucs2le` codec -/

/-- Embeds `Ucs2Le.encode` with the strict handler: codepoints ≥ 65536 raise. -/
def ucs2leEncode (s : List Nat) : Except Unit (List Nat) :=
  if s.all (fun c => c < 65536) then
    .ok (s.flatMap (fun c => [c % 256, c >>> 8]))
  else .error ()

/-- The even-length part of `Ucs2Le.decode`: `for i in range(0, len-1, 2)`
pairs low byte first.  (The odd trailing byte is never reached from the
decoder: `StrDecoders.u16bytes` checks parity before calling this codec.) -/
def ucs2leDecode : List Nat → List Nat
  | a :: b :: rest => (a + b * 256) :: ucs2leDecode rest
  | _ => []

/-! ## Hexadecimal helpers (`binascii.b2a_hex` / `binascii.a2b_hex`) -/

/-- Lower-case hex digit of a nibble. -/
def hexChar (n : Nat) : Nat :=
  if n < 10 then 48 + n else 87 + n

/-- Embeds `binascii.b2a_hex`: two lower-case hex characters per byte. -/
def b2a_hex (bs : List Nat) : List Nat :=
  bs.flatMap (fun b => [hexChar (b / 16), hexChar (b % 16)])

/-- Value of one hex-digit character (`0-9`, `a-f`, `A-F`). -/
def hexDigit (c : Nat) : Option Nat :=
  if 48 ≤ c ∧ c ≤ 57 then some (c - 48)
  else if 97 ≤ c ∧ c ≤ 102 then some (c - 87)
  else if 65 ≤ c ∧ c ≤ 70 then some (c - 55)
  else none

/-- Embeds `binascii.a2b_hex`: fails on an odd count or a non-hex character. -/
def a2b_hex : List Nat → Except Unit (List Nat)
  | [] => .ok []
  | [_] => .error ()
  | c1 :: c2 :: rest =>
    match hexDigit c1, hexDigit c2 with
    | some h, some l =>
      match a2b_hex rest with
      | .ok bs => .ok ((16 * h + l) :: bs)
      | .error e => .error e
    | _, _ => .error ()

/-! ## `specification.py`: BCD character maps -/

/-- Embeds `HEX2BCD` applied to one character of a hex string (decode direction). -/
def hex2bcdChar (c : Nat) : Nat :=
  if c = 97 then 32        -- 'a' -> ' '
  else if c = 98 then 45   -- 'b' -> '-'
  else if c = 99 then 46   -- 'c' -> '.'
  else if c = 100 then 0x24B9
  else if c = 101 then 0x24BA
  else if c = 102 then 0x24BB
  else c

/-- Embeds `BCD2HEX` applied to one character (encode direction): the inverse map
plus the entries disabling `a`-`f` and `A`-`F`. -/
def bcd2hexChar (c : Nat) : Nat :=
  if c = 32 then 97
  else if c = 45 then 98
  else if c = 46 then 99
  else if c = 0x24B9 then 100
  else if c = 0x24BA then 101
  else if c = 0x24BB then 102
  else if 97 ≤ c ∧ c ≤ 102 then 0x24B9 + (c - 97)
  else if 65 ≤ c ∧ c ≤ 70 then 0x24B9 + (c - 65)
  else c

/-! ## `types.py`: tagged string values and the value tree -/

/-- The `encoding` attribute values carried by `StrWithEncoding` subclasses. -/
inductive StrTag
  | hex
  | bcd
  | packed
  | latin1
  | ucs2le
deriving DecidableEq, Repr

/-- A decoded/encodable string value.
`plain` is an ordinary `str`; `tagged` is a `StrWithEncoding` instance with
its class-level `encoding` and `lang_disagree` attributes.  Note that in the
source `ProperLatin1String`/`MisusedLatin1String` derive directly from
`StrWithEncoding`, so their `encoding` attribute is `none`. -/
inductive StrVal
  | plain (text : List Nat)
  | tagged (text : List Nat) (encoding : Option StrTag) (lang_disagree : Option Bool)
deriving DecidableEq, Repr

/-- The `lang_disagree` attribute of a string value (`none` on plain strings
and on the tag-only classes). -/
def StrVal.disagree : StrVal → Option Bool
  | .plain _ => none
  | .tagged _ _ d => d

/-- Embeds `EntryValue`: value of one field of an info table. -/
inductive EntryValue
  | int (n : Nat)
  | date (minutes : Nat)
  | str (s : StrVal)
  | strlist (l : List StrVal)
deriving DecidableEq, Repr

/-- Embeds `AreaValue`: hex-dump string (internal-use/multi-value areas) or an
ordered field mapping (info tables, and the `header` pseudo-area). -/
inductive AreaValue
  | hexstr (s : List Nat)
  | table (m : List (String × EntryValue))
deriving DecidableEq, Repr

/-- Python `len` of an `AreaValue` (string length / dict size). -/
def AreaValue.size : AreaValue → Nat
  | .hexstr s => s.length
  | .table m => m.length

/-- Association-list lookup (insertion-ordered `dict.get`). -/
def lookupA {α : Type} : List (String × α) → String → Option α
  | [], _ => none
  | (k, v) :: rest, nm => if k = nm then some v else lookupA rest nm

/-! ## `specification.py`: the field/area specification model -/

/-- Embeds `EntrySpec` leaf classes used by `FRU_SPEC`: `ChassisType`/`Lang`
(with `is_lang` distinguishing `Lang`), `Date`, `L1Str`/`U16Str`
(with `use_lang`), and `OemStrList`. -/
inductive EntrySpec
  | byte (nm : String) (minvalue maxvalue default : Nat) ( is_lang : Bool)
  | date (nm : String)
  | str (nm : String) (use_lang : Bool)
  | oemStrList (nm : String)
deriving DecidableEq, Repr

/-- The `name` attribute of an entry spec. -/
def EntrySpec.name : EntrySpec → String
  | .byte nm _ _ _ _ => nm
  | .date nm => nm
  | .str nm _ => nm
  | .oemStrList nm => nm

/-- Embeds `isinstance(entry, OemStrList)`. -/
def EntrySpec.isOem : EntrySpec → Bool
  | .oemStrList _ => true
  | _ => false

/-- Embeds `AreaSpec` leaf classes used by `FRU_SPEC`. -/
inductive AreaSpec
  | areaByte (nm : String) (value : Nat) (mandatory virtual : Bool)
  | internalUse (nm : String)
  | infoTable (nm : String) (entries : List EntrySpec)
  | multiValue (nm : String)
deriving DecidableEq, Repr

/-- The `name` attribute of an area spec. -/
def AreaSpec.name : AreaSpec → String
  | .areaByte nm _ _ _ => nm
  | .internalUse nm => nm
  | .infoTable nm _ => nm
  | .multiValue nm => nm

/-- Embeds `isinstance(spec, InfoTable)`. -/
def AreaSpec.isInfoTable : AreaSpec → Bool
  | .infoTable _ _ => true
  | _ => false

/-- Embeds `FRU_SPEC`: the fixed base-header/area specification. -/
def FRU_SPEC : List AreaSpec :=
  [ .areaByte ("version") 1 true true,
    .internalUse ("internal"),
    .infoTable ("chassis")
      [ .byte ("type") 1 32 2 false,
        .str ("partno") false,
        .str ("serial") false,
        .oemStrList ("oem") ],
    .infoTable ("board")
      [ .byte ("lang") 0 136 0 true,
        .date ("date"),
        .str ("manufacturer") true,
        .str ("product") true,
        .str ("serial") false,
        .str ("partno") true,
        .str ("fru") false,
        .oemStrList ("oem") ],
    .infoTable ("product")
      [ .byte ("lang") 0 136 0 true,
        .str ("manufacturer") true,
        .str ("name") true,
        .str ("model") true,
        .str ("version") true,
        .str ("serial") false,
        .str ("asset") true,
        .str ("fru") true,
        .oemStrList ("oem") ],
    .multiValue ("multi"),
    .areaByte ("padding") 0 false false ]

/-- Codepoints of a Lean string literal. -/
def strCps (s : String) : List Nat :=
  s.toList.map Char.toNat

/-! ## `logging.py` / error model -/

/-- Structured decoder diagnostics (the format-string messages of
`decoder.py`). -/
inductive DecMsg
  | prematureEnd (table : String)
  | badVersion (table : String) (got : Nat)
  | badChecksum (table : String)
  | overlapsEndingByte (pfx entry : String)
  | areaOverlap (area prev : String)
  | headerTooShort
  | headerBadChecksum
  | headerByteWrong (nm : String)
deriving DecidableEq, Repr

/-- A decode outcome that is not a value: a raised `DecoderError` or a failed
Python `assert`. -/
inductive DecErr
  | decoderError (m : DecMsg)
  | assertionError
deriving DecidableEq, Repr

/-- Exceptions of the simple entry decoders: `IndexError` (only from
subscribing `data`, caught by `decode_info_table_inner`) and
`AssertionError`. -/
inductive SimpErr
  | indexError
  | assertionError
deriving DecidableEq, Repr

/-! ## `decoder.py` -/

/-- Embeds `self.lang in (None, 0, 25)`: the effective language is English. -/
def isEnglish : Option Nat → Bool
  | none => true
  | some 0 => true
  | some 25 => true
  | _ => false

/-- Embeds `StrDecoders.u16bytes`: odd payloads fall back to Latin-1 as
`MisusedLatin1String` (which, deriving directly from `StrWithEncoding`,
carries no `encoding` attribute); even payloads decode as
`ProperU16String`. -/
def u16bytes (data : List Nat) : StrVal :=
  if data.length % 2 ≠ 0 then .tagged data none (some true)
  else .tagged (ucs2leDecode data) (some .ucs2le) (some false)

/-- Embeds `StrDecoders.decoders[t]` for `t = 0..3` (`hex`, `bcd`, `packed`,
`l1bytes`); an out-of-range `t` raises `AssertionError("type out of
bounds")`.  `l1bytes` builds `ProperLatin1String`, which derives directly
from `StrWithEncoding` and therefore has `encoding = None`. -/
def strDecoderAt (t : Nat) (data : List Nat) : Except SimpErr StrVal :=
  match t with
  | 0 => .ok (.tagged (b2a_hex data) (some .hex) none)
  | 1 => .ok (.tagged ((b2a_hex data).map hex2bcdChar) (some .bcd) none)
  | 2 => .ok (.tagged (Packed.decode data) (some .packed) none)
  | 3 => .ok (.tagged data none (some false))
  | _ => .error .assertionError

/-- Embeds `Decoder.decode_str2`.  The `tl == 0xC1` warning has no control-flow
effect and is omitted.  Python's permissive slice `data[1:l+1]` is
`(data.drop 1).take l`. -/
def decode_str2 (lang : Option Nat) (use_lang : Bool) (nm : String) (data : List Nat) :
    Except SimpErr (Nat × StrVal) :=
  match data.head? with
  | none => .error .indexError
  | some tl =>
    let l := tl % 64
    let t := (tl - l) >>> 6
    if use_lang && t == 3 && !(isEnglish lang) then
      .ok (l + 1, u16bytes ((data.drop 1).take l))
    else
      match strDecoderAt t ((data.drop 1).take l) with
      | .ok v => .ok (l + 1, v)
      | .error e => .error e

/-- The `while len(data)` loop of `Decoder.decode_oem`, with fuel: each
iteration consumes `l + 1 ≥ 1` bytes, so `fuel = data.length` never runs
out.  On exit the loop returns `len(data)` — which is `0`, the local `data`
having been fully consumed. -/
def decode_oem_go (lang : Option Nat) : Nat → List Nat → List StrVal →
    Except SimpErr (Nat × List StrVal)
  | _, [], acc => .ok (List.length ([] : List Nat), acc.reverse)
  | 0, data, acc => .ok (data.length, acc.reverse)
  | fuel + 1, data, acc =>
    match decode_str2 lang true ("oem") data with
    | .error e => .error e
    | .ok (l, s) => decode_oem_go lang fuel (data.drop l) (s :: acc)

/-- Embeds `Decoder.decode_oem`. -/
def decode_oem (lang : Option Nat) (data : List Nat) : Except SimpErr (Nat × List StrVal) :=
  decode_oem_go lang data.length data []

/-- Embeds `Decoder.decode_byte` (the out-of-bounds case only logs a warning). -/
def decode_byte (minvalue maxvalue : Nat) (data : List Nat) : Except SimpErr (Nat × EntryValue) :=
  match data.head? with
  | none => .error .indexError
  | some v => .ok (1, .int v)

/-- Embeds `Decoder.decode_date`: three little-endian bytes of minutes since the
FRU epoch (the `datetime` object is represented by that minute count). -/
def decode_date (data : List Nat) : Except SimpErr (Nat × EntryValue) :=
  match data with
  | d0 :: d1 :: d2 :: _ => .ok (3, .date (d0 + 256 * d1 + 65536 * d2))
  | _ => .error .indexError

/-- The `entry_decoders` dispatch of `Decoder.decode_info_table_inner`. -/
def decode_entry (lang : Option Nat) (e : EntrySpec) (data : List Nat) :
    Except SimpErr (Nat × EntryValue) :=
  match e with
  | .byte _ minv maxv _ _ => decode_byte minv maxv data
  | .date _ => decode_date data
  | .str nm ul =>
    match decode_str2 lang ul nm data with
    | .ok (l, s) => .ok (l, .str s)
    | .error e => .error e
  | .oemStrList _ =>
    match decode_oem lang data with
    | .ok (l, out) => .ok (l, .strlist out)
    | .error e => .error e

/-- The entry loop of `Decoder.decode_info_table_inner`: `IndexError`
becomes `DecoderError("Entry %s%s overlaps ending byte (0xC1)")`; a `Lang`
entry updates the table-local language (with the source's
`assert isinstance(v, int)`); at the end `assert len(data) == 0`. -/
def inner_go (tname : String) (lang : Option Nat) :
    List EntrySpec → List Nat → List (String × EntryValue) →
    Except DecErr (List (String × EntryValue))
  | [], data, acc => if data.isEmpty then .ok acc.reverse else .error .assertionError
  | e :: rest, data, acc =>
    match decode_entry lang e data with
    | .error .indexError => .error (.decoderError (.overlapsEndingByte (tname ++ ".") e.name))
    | .error .assertionError => .error .assertionError
    | .ok (l, v) =>
      match e, v with
      | .byte _ _ _ _ true, .int n =>
        inner_go tname (some n) rest (data.drop l) ((e.name, v) :: acc)
      | .byte _ _ _ _ true, _ => .error .assertionError
      | _, _ => inner_go tname lang rest (data.drop l) ((e.name, v) :: acc)

/-- Embeds `Decoder.decode_info_table_inner` (the language state starts at 0). -/
def decode_info_table_inner (tname : String) (entries : List EntrySpec) (data : List Nat) :
    Except DecErr (List (String × EntryValue)) :=
  inner_go tname (some 0) entries data []

/-- Embeds `Decoder.decode_area_len`.  `data[l-1]` follows Python indexing: for
`l = 0` it is `data[-1]`, which exists because `data[0]` was read; for
`l > 0` it raises `IndexError` (→ "Premature end of data") iff
`l - 1 ≥ len(data)`.  The version mismatch goes through
`Logger.decodererror`, fatal only under the strict policy. -/
def decode_area_len (strict : Bool) (nm : String) (data : List Nat) : Except DecErr Nat :=
  match data.head? with
  | none => .error (.decoderError (.prematureEnd nm))
  | some v0 =>
    if v0 ≠ 1 ∧ strict then .error (.decoderError (.badVersion nm v0))
    else
      match data[1]? with
      | none => .error (.decoderError (.prematureEnd nm))
      | some v1 =>
        let l := v1 * 8
        if l = 0 then .ok 0
        else if l - 1 < data.length then .ok l
        else .error (.decoderError (.prematureEnd nm))

/-- The backward scan `while eot > 2 and data[eot] != 0xc1` of
`Decoder.decode_info_table` (nonzero-padding warnings omitted). -/
def eotScan (data : List Nat) : Nat → Nat
  | 0 => 0
  | 1 => 1
  | 2 => 2
  | e + 3 => if data.getD (e + 3) 0 ≠ 0xc1 then eotScan data (e + 2) else e + 3

/-- Embeds `Decoder.decode_info_table`.  Python's `eot = l - 2` is `-2` when
`l = 0`; the slice `data[2:eot]` is empty then, as is `data[:l]`. -/
def decode_info_table (strict : Bool) (nm : String) (entries : List EntrySpec)
    (data : List Nat) : Except DecErr (Nat × AreaValue) :=
  match decode_area_len strict nm data with
  | .error e => .error e
  | .ok l =>
    let d := data.take l
    if d.sum % 256 ≠ 0 ∧ strict then .error (.decoderError (.badChecksum nm))
    else
      let eot := if 2 ≤ l then eotScan d (l - 2) else 0
      match decode_info_table_inner nm entries ((d.take eot).drop 2) with
      | .ok m => .ok (l, .table m)
      | .error e => .error e

/-- Hex chunks of at most 64 characters (the `range(0, len(ret), 64)` loop
of `Decoder.area_hexdump`), with fuel bounded by the string length. -/
def chunk64 : Nat → List Nat → List (List Nat)
  | _, [] => []
  | 0, l => [l]
  | fuel + 1, l => l.take 64 :: chunk64 fuel (l.drop 64)

/-- Embeds `Decoder.area_hexdump`: `'\n'.join(['hex:'] + chunks)`. -/
def area_hexdump (data : List Nat) : Nat × AreaValue :=
  let hx := b2a_hex data
  (data.length, .hexstr (strCps ("hex:") ++ (chunk64 hx.length hx).flatMap (fun ln => 10 :: ln)))

/-- Embeds `Decoder.decode_internal`. -/
def decode_internal (strict : Bool) (nm : String) (data : List Nat) :
    Except DecErr (Nat × AreaValue) :=
  match decode_area_len strict nm data with
  | .ok l => .ok (area_hexdump (data.take l))
  | .error e => .error e

/-- Embeds `Decoder.decode_multivalue` (its warning is unconditional and omitted). -/
def decode_multivalue (data : List Nat) : Nat × AreaValue :=
  area_hexdump data

/-- A pending area found in the base header (`DecoderArea`; its `pos` field
is never read afterwards and is dropped). -/
structure DecoderArea where
  spec : AreaSpec
  offset : Nat
deriving DecidableEq, Repr

/-- The `FRU_SPEC` loop of `Decoder.decode_header`: `AreaByte` entries are
compared against their expected value (`decodererror` when mandatory,
warning otherwise); nonzero `AreaOffset` bytes become pending areas at
`value * 8`. -/
def decode_header_go (strict : Bool) (data : List Nat) :
    List AreaSpec → Nat → Except DecErr (List (String × EntryValue) × List DecoderArea)
  | [], _ => .ok ([], [])
  | a :: rest, i =>
    let v := data.getD i 0
    match a with
    | .areaByte nm value mandatory virtual =>
      if value ≠ v ∧ (mandatory ∧ strict) then .error (.decoderError (.headerByteWrong nm))
      else
        match decode_header_go strict data rest (i + 1) with
        | .error e => .error e
        | .ok (ret, areas) =>
          if virtual ∨ value = v then .ok (ret, areas)
          else .ok ((nm, .int v) :: ret, areas)
    | _ =>
      match decode_header_go strict data rest (i + 1) with
      | .error e => .error e
      | .ok (ret, areas) =>
        if v ≠ 0 then .ok (ret, ⟨a, v * 8⟩ :: areas) else .ok (ret, areas)

/-- Embeds `Decoder.decode_header` (`checksum_pos = len(FRU_SPEC) = 7`). -/
def decode_header (strict : Bool) (data : List Nat) :
    Except DecErr (List (String × EntryValue) × List DecoderArea × Nat) :=
  if data.length ≤ 7 then .error (.decoderError .headerTooShort)
  else if (data.take 8).sum % 256 ≠ 0 ∧ strict then .error (.decoderError .headerBadChecksum)
  else
    match decode_header_go strict data FRU_SPEC 0 with
    | .ok (ret, areas) => .ok (ret, areas, 8)
    | .error e => .error e

/-- Stable insertion of a pending area into an offset-sorted list (a new
area goes after existing areas with the same offset, matching the stable
`list.sort`). -/
def insertArea (a : DecoderArea) : List DecoderArea → List DecoderArea
  | [] => [a]
  | b :: rest => if a.offset < b.offset then a :: b :: rest else b :: insertArea a rest

/-- Embeds `areas.sort(key=lambda x: x.offset)`. -/
def sortAreas : List DecoderArea → List DecoderArea
  | [] => []
  | a :: rest => insertArea a (sortAreas rest)

/-- The per-area loop of `Decoder.decode`.  The source never reassigns
`prev_area`, so overlap messages always blame `"header"`; the gap warning
is omitted.  An `AreaByte` pending area is impossible, matching the
source's `assert decoder is not None`. -/
def decode_loop (strict : Bool) (data : List Nat) :
    List DecoderArea → Nat → List (String × AreaValue) →
    Except DecErr (List (String × AreaValue))
  | [], _, ret => .ok ret
  | a :: rest, pos, ret =>
    if a.offset < pos then .error (.decoderError (.areaOverlap a.spec.name ("header")))
    else
      let r := match a.spec with
        | .internalUse nm => decode_internal strict nm (data.drop a.offset)
        | .infoTable nm entries => decode_info_table strict nm entries (data.drop a.offset)
        | .multiValue _ => .ok (decode_multivalue (data.drop a.offset))
        | .areaByte _ _ _ _ => .error .assertionError
      match r with
      | .error e => .error e
      | .ok (alen, aval) =>
        decode_loop strict data rest (a.offset + alen)
          (if aval.size ≠ 0 then ret ++ [(a.spec.name, aval)] else ret)

/-- Embeds `Decoder.decode` / the module-level `decode` (trailing-byte diagnostics
are info/warning only and omitted). -/
def decode (strict : Bool) (data : List Nat) : Except DecErr (List (String × AreaValue)) :=
  match decode_header strict data with
  | .error e => .error e
  | .ok (hdr, areas, pos) =>
    let ret0 := if hdr.length ≠ 0 then [(("header" : String), AreaValue.table hdr)] else []
    decode_loop strict data (sortAreas areas) pos ret0

/-! ## `encoder.py` -/

/-- Structured encoder diagnostics (the format-string messages of
`encoder.py`). -/
inductive EncMsg
  | onlyIntegers (pfx nm : String)
  | dateType (pfx nm : String)
  | dateTooHigh (pfx nm : String)
  | invalidEncoding (pfx nm : String)
  | cannotEncode (pfx nm : String)
  | tooManyBytes (pfx nm : String) (count : Nat)
  | expectedList (pfx nm : String)
  | unsupportedAreaType (area : String)
  | onlyHexSupported (area : String)
  | failedHexData (area : String)
  | hexNotAligned (area : String)
  | hexBadLength (area : String) (expected got : Nat)
  | headerNotDict
  | headerByteRange (nm : String)
deriving DecidableEq, Repr

/-- An encode outcome that is not a value: a raised `EncoderError`, a failed
Python `assert`, or a `ValueError` from storing a value ≥ 256 into a
`bytearray`. -/
inductive EncErr
  | encoderError (m : EncMsg)
  | assertionError
  | valueError
deriving DecidableEq, Repr

/-- Embeds `str.upper` on a codepoint, restricted to ASCII (no value evaluated by
these claims exercises the wider Unicode case map). -/
def upperAscii (c : Nat) : Nat :=
  if 97 ≤ c ∧ c ≤ 122 then c - 32 else c

/-- Embeds `StrEncoders.<tag>`: each returns the type bits and payload bytes, or
raises (modelled as `Except Unit`): bad hex digits, packed characters out
of `range(32, 96)`, Latin-1 codepoints ≥ 256, UCS-2 codepoints ≥ 65536. -/
def strEncodeTag : StrTag → List Nat → Except Unit (Nat × List Nat)
  | .hex, text => (a2b_hex text).map (fun b => (0, b))
  | .bcd, text => (a2b_hex (text.map bcd2hexChar)).map (fun b => (1, b))
  | .packed, text => (Packed.encode (text.map upperAscii)).map (fun b => (2, b))
  | .latin1, text => if text.all (· < 256) then .ok (3, text) else .error ()
  | .ucs2le, text => (ucs2leEncode text).map (fun b => (3, b))

/-- Embeds `['ucs2le', 'latin1'][english]`: the encoding inferred for untagged
values. -/
def inferTag (lang : Option Nat) : Option StrTag :=
  if isEnglish lang then some .latin1 else some .ucs2le

/-- Embeds `unicode(cfg)` in the untagged branch of `Encoder.encode_str`.  Python
renders ints, datetimes and lists via `str`; the decimal rendering is
exact, the datetime/list renderings are placeholder texts (no claim
evaluates those cases, only their success matters). -/
def unicodeOf : EntryValue → List Nat
  | .int n => strCps (toString n)
  | .date m => strCps (toString m)
  | .str (.plain t) => t
  | .str (.tagged t _ _) => t
  | .strlist l => l.flatMap (fun s => match s with | .plain t => t | .tagged t _ _ => t)

/-- The text/encoding selection of `Encoder.encode_str`: a
`StrWithEncoding` value keeps its `encoding` attribute (mismatch warnings
omitted); `None` becomes `u""`; anything else goes through `unicode` and
infers the encoding from the effective language. -/
def encode_str_choose (cfg : Option EntryValue) (lang : Option Nat) :
    List Nat × Option StrTag :=
  match cfg with
  | some (.str (.tagged t enc _)) => (t, enc)
  | none => ([], inferTag lang)
  | some v => (unicodeOf v, inferTag lang)

/-- Embeds `Encoder.encode_str`.  `StrEncoders.getencoder(None)` raises, giving
`EncoderError("invalid encoding (None) specified")`; a payload over 64
bytes is a hard error; `bytearray([(t<<6)+len(b)])` raises `ValueError`
when the header byte reaches 256.  The `ret[0] == 0xc1` ambiguity warning
is omitted. -/
def encode_str (pfx nm : String) (cfg : Option EntryValue) (lang : Option Nat) :
    Except EncErr (List Nat) :=
  let txt := (encode_str_choose cfg lang).1
  match (encode_str_choose cfg lang).2 with
  | none => .error (.encoderError (.invalidEncoding pfx nm))
  | some tag =>
    match strEncodeTag tag txt with
    | .error _ => .error (.encoderError (.cannotEncode pfx nm))
    | .ok (t, b) =>
      if 64 < b.length then .error (.encoderError (.tooManyBytes pfx nm b.length))
      else if 256 ≤ (t <<< 6) + b.length then .error .valueError
      else .ok (((t <<< 6) + b.length) :: b)

/-- Embeds `Encoder.encode_byte`: defaulting, the `range(256)` check (semantic
bounds only warn). -/
def encode_byte (pfx nm : String) (default : Nat) (cfg : Option EntryValue) :
    Except EncErr Nat :=
  match cfg.getD (.int default) with
  | .int n => if n < 256 then .ok n else .error (.encoderError (.onlyIntegers pfx nm))
  | _ => .error (.encoderError (.onlyIntegers pfx nm))

/-- Embeds `Encoder.encode_date`: a `datetime` is its minute count since the FRU
epoch (`round(total_seconds/60)` recovers it exactly); negative counts
cannot arise for `Nat`-modelled values; ≥ 2^24 is a hard error. -/
def encode_date (pfx nm : String) (cfg : Option EntryValue) : Except EncErr (List Nat) :=
  match (match cfg with
         | none => .ok 0
         | some (.date m) => .ok m
         | some (.int n) => .ok n
         | some _ => .error (.encoderError (.dateType pfx nm)) : Except EncErr Nat) with
  | .error e => .error e
  | .ok dt =>
    if 1 <<< 24 ≤ dt then .error (.encoderError (.dateTooHigh pfx nm))
    else .ok [dt % 256, (dt >>> 8) % 256, (dt >>> 16) % 256]

/-- The item loop of `Encoder.encode_oem` (items are numbered `oem1`,
`oem2`, … and encoded via `encode_u16str` under the current language). -/
def encode_oem_go (pfx : String) (lang : Option Nat) : Nat → List StrVal →
    Except EncErr (List Nat)
  | _, [] => .ok []
  | i, s :: rest =>
    match encode_str pfx ("oem" ++ toString i) (some (.str s)) lang with
    | .error e => .error e
    | .ok b =>
      match encode_oem_go pfx lang (i + 1) rest with
      | .ok brest => .ok (b ++ brest)
      | .error e => .error e

/-- Embeds `Encoder.encode_oem`: `None` means no items; a string (`basestring`) or
non-iterable value raises. -/
def encode_oem (pfx nm : String) (cfg : Option EntryValue) (lang : Option Nat) :
    Except EncErr (List Nat) :=
  match cfg with
  | none => .ok []
  | some (.strlist l) => encode_oem_go pfx lang 1 l
  | some _ => .error (.encoderError (.expectedList pfx nm))

/-- The `entry_encoders` dispatch of `Encoder.encode_info_table`
(`ChassisType`/`Lang`/`Date`/`L1Str`/`U16Str`/`OemStrList`); `encode_lang`
updates the encoder's language state with the emitted byte; `encode_l1str`
passes the literal language 0. -/
def encode_entry (pfx : String) (m : List (String × EntryValue)) (lang : Option Nat)
    (e : EntrySpec) : Except EncErr (List Nat × Option Nat) :=
  match e with
  | .byte nm _ _ dflt lang_flag =>
    match encode_byte pfx nm dflt (lookupA m nm) with
    | .ok v => .ok ([v], if lang_flag then some v else lang)
    | .error err => .error err
  | .date nm => (encode_date pfx nm (lookupA m nm)).map (fun b => (b, lang))
  | .str nm use_lang =>
    (encode_str pfx nm (lookupA m nm) (if use_lang then lang else some 0)).map
      (fun b => (b, lang))
  | .oemStrList nm => (encode_oem pfx nm (lookupA m nm) lang).map (fun b => (b, lang))

/-- The entry loop of `Encoder.encode_info_table`, threading the language
state. -/
def encode_entries (pfx : String) (m : List (String × EntryValue)) :
    Option Nat → List EntrySpec → Except EncErr (List Nat)
  | _, [] => .ok []
  | lang, e :: rest =>
    match encode_entry pfx m lang e with
    | .error err => .error err
    | .ok (b, lang1) =>
      match encode_entries pfx m lang1 rest with
      | .ok brest => .ok (b ++ brest)
      | .error err => .error err

/-- Embeds `utils.div8`: `i / 8`, asserting divisibility. -/
def div8 (i : Nat) : Except EncErr Nat :=
  if i % 8 = 0 then .ok (i / 8) else .error .assertionError

/-- The padding loop `while len(ret) % 8 != 7: ret.append(0)` of
`Encoder.encode_info_table`, in closed form. -/
def pad7 (r1 : List Nat) : List Nat :=
  r1 ++ List.replicate ((15 - r1.length % 8) % 8) 0

/-- Embeds `Encoder.encode_info_table`: `[1, 0]` + entries + `0xC1` terminator +
zero padding, then the length byte (`bytearray` assignment raises
`ValueError` at 256) and the trailing checksum.  The two leading
`assert isinstance` checks fail on any non-`InfoTable` spec or non-mapping
value. -/
def encode_info_table (spec : AreaSpec) (cfg : AreaValue) : Except EncErr (List Nat) :=
  match spec, cfg with
  | .infoTable nm entries, .table m =>
    match encode_entries nm m none entries with
    | .error e => .error e
    | .ok body =>
      let r2 := pad7 (1 :: 0 :: (body ++ [0xc1]))
      match div8 (r2.length + 1) with
      | .error e => .error e
      | .ok v =>
        if 256 ≤ v then .error .valueError
        else .ok (r2.set 1 v ++ [checksum (r2.set 1 v)])
  | _, _ => .error .assertionError

/-- Embeds `re.sub("\\s", "", s)` on a codepoint (ASCII whitespace; the Unicode
extras never occur in these inputs). -/
def isPySpace (c : Nat) : Bool :=
  c = 9 ∨ c = 10 ∨ c = 11 ∨ c = 12 ∨ c = 13 ∨ c = 32

/-- Embeds `encoder.nowhite`. -/
def nowhite (s : List Nat) : List Nat :=
  s.filter (fun c => !isPySpace c)

/-- Embeds `Encoder.encode_area_hex`: strip whitespace, require the `hex:` prefix,
hex-decode; an empty payload encodes nothing; `MultiValue` areas assert
they are last; other areas must be 8-byte aligned with a consistent length
byte (`ret[0] != 1` and — for `InfoTable` specs — a checksum mismatch only
warn). -/
def encode_area_hex (spec : AreaSpec) (cfg : AreaValue) ( is_last : Bool) :
    Except EncErr (List Nat) :=
  match cfg with
  | .table _ => .error (.encoderError (.unsupportedAreaType spec.name))
  | .hexstr s0 =>
    let s := nowhite s0
    if s.take 4 ≠ strCps ("hex:") then .error (.encoderError (.onlyHexSupported spec.name))
    else
      match a2b_hex (s.drop 4) with
      | .error _ => .error (.encoderError (.failedHexData spec.name))
      | .ok ret =>
        if ret.length = 0 then .ok []
        else
          match spec with
          | .multiValue _ => if is_last then .ok ret else .error .assertionError
          | _ =>
            if ret.length % 8 ≠ 0 then .error (.encoderError (.hexNotAligned spec.name))
            else if ret.length ≠ 8 * ret.getD 1 0 then
              .error (.encoderError (.hexBadLength spec.name (ret.length / 8) (ret.getD 1 0)))
            else .ok ret

/-- The `FRU_SPEC` loop of `Encoder.prepare_header`: `AreaByte` values may
be overridden (non-virtual only) by the caller's header mapping — any
non-byte override raises; `AreaOffset` entries reserve a zero byte and
remember their position. -/
def prepare_header_go (m : List (String × EntryValue)) :
    List AreaSpec → Nat → Except EncErr (List Nat × List (AreaSpec × Nat))
  | [], _ => .ok ([], [])
  | a :: rest, i =>
    match a with
    | .areaByte nm value _ virtual =>
      match (if virtual then .ok value
             else match lookupA m nm with
               | none => .ok value
               | some (.int n) =>
                 if n < 256 then .ok n else .error (.encoderError (.headerByteRange nm))
               | some _ => .error (.encoderError (.headerByteRange nm)) : Except EncErr Nat) with
      | .error e => .error e
      | .ok v =>
        match prepare_header_go m rest (i + 1) with
        | .ok (ret, areas) => .ok (v :: ret, areas)
        | .error e => .error e
    | _ =>
      match prepare_header_go m rest (i + 1) with
      | .ok (ret, areas) => .ok (0 :: ret, (a, i) :: areas)
      | .error e => .error e

/-- Embeds `Encoder.prepare_header` (a non-mapping header raises; a trailing zero
checksum placeholder is appended). -/
def prepare_header (cfg : AreaValue) : Except EncErr (List Nat × List (AreaSpec × Nat)) :=
  match cfg with
  | .hexstr _ => .error (.encoderError .headerNotDict)
  | .table m =>
    match prepare_header_go m FRU_SPEC 0 with
    | .ok (ret, areas) => .ok (ret ++ [0], areas)
    | .error e => .error e

/-- Embeds `if pos != len(ret): ret[area.pos] = div8(pos)` — the offset patch after
one area is emitted (`bytearray` assignment raises `ValueError` at 256). -/
def patch_offset (hpos pos : Nat) (ret1 : List Nat) : Except EncErr (List Nat) :=
  if pos ≠ ret1.length then
    match div8 pos with
    | .error e => .error e
    | .ok v => if 256 ≤ v then .error .valueError else .ok (ret1.set hpos v)
  else .ok ret1

/-- The per-area loop of `Encoder.encode`.  The source's dispatch tests
`isinstance(cfg, dict)` on the *whole configuration object* — always a
mapping here — so the branch condition reduces to
`isinstance(area.spec, InfoTable)`; `i` counts only processed areas and
feeds `encode_area_hex`'s `is_last`. -/
def encode_loop (cfg : List (String × AreaValue)) :
    List (AreaSpec × Nat) → Nat → Nat → List Nat → Except EncErr (List Nat)
  | [], _, _, ret => .ok ret
  | (spec, hpos) :: rest, nAreas, i, ret =>
    if ret.length % 8 ≠ 0 then .error .assertionError
    else
      match lookupA cfg spec.name with
      | none => encode_loop cfg rest nAreas i ret
      | some acfg =>
        if acfg.size = 0 then encode_loop cfg rest nAreas i ret
        else
          match (if spec.isInfoTable then encode_info_table spec acfg
                 else encode_area_hex spec acfg (i = nAreas - 1)) with
          | .error e => .error e
          | .ok body =>
            match patch_offset hpos ret.length (ret ++ body) with
            | .error e => .error e
            | .ok ret2 => encode_loop cfg rest nAreas (i + 1) ret2

/-- Embeds `Encoder.encode` / the module-level `encode`
(`ret[len(FRU_SPEC)] = checksum(ret[:len(FRU_SPEC)])` finalizes the header
checksum at position 7). -/
def encode (cfg : List (String × AreaValue)) : Except EncErr (List Nat) :=
  match prepare_header ((lookupA cfg ("header")).getD (.table [])) with
  | .error e => .error e
  | .ok (ret0, areas) =>
    match encode_loop cfg areas areas.length 0 ret0 with
    | .error e => .error e
    | .ok ret => .ok (ret.set 7 (checksum (ret.take 7)))

/-! ## Concrete inputs used by the claim theorems -/

/-- The chassis entry list of `FRU_SPEC`. -/
def chassisEntries : List EntrySpec :=
  [ .byte ("type") 1 32 2 false,
    .str ("partno") false,
    .str ("serial") false,
    .oemStrList ("oem") ]

/-- A spec-compliant FRU image: base header (chassis area at offset 8) and
one chassis table `{type: 2, partno: "AB", serial: "CD"}` with an empty OEM
region; both checksums are valid. -/
def c1buf : List Nat :=
  [1, 0, 1, 0, 0, 0, 0, 254,
   1, 2, 2, 194, 65, 66, 194, 67, 68, 193, 0, 0, 0, 0, 0, 172]

/-- The value tree `decode` produces for `c1buf`.  The Latin-1 strings are
`ProperLatin1String`s: their `encoding` attribute is `none`. -/
def c1tree : List (String × AreaValue) :=
  [(("chassis"), .table
    [(("type"), .int 2),
     (("partno"), .str (.tagged [65, 66] none (some false))),
     (("serial"), .str (.tagged [67, 68] none (some false))),
     (("oem"), .strlist [])])]

/-- A 16-byte chassis area whose predefined fields are truncated by an
embedded 0xC1 after the `type` byte (checksum valid). -/
def c2area : List Nat :=
  [1, 2, 5, 193, 0, 0, 0, 0, 0, 0, 0, 0, 0, 0, 0, 55]

/-- A configuration whose internal-use area is a pre-encoded hex blob with
a self-consistent length byte but an invalid checksum (sum 2 mod 256). -/
def c4cfg : List (String × AreaValue) :=
  [(("internal"), .hexstr (strCps ("hex:0101000000000000")))]

/-- The bytes `encode` produces for `c4cfg`. -/
def c4out : List Nat :=
  [1, 1, 0, 0, 0, 0, 0, 254, 1, 1, 0, 0, 0, 0, 0, 0]

/-- A spec-compliant FRU image whose chassis table carries one OEM string
(`"EF"`); both checksums are valid. -/
def c9buf : List Nat :=
  [1, 0, 1, 0, 0, 0, 0, 254,
   1, 2, 2, 194, 65, 66, 194, 67, 68, 194, 69, 70, 193, 0, 0, 95]

/-! ## Helper lemmas -/

/-- Appending `checksum b` to `b` zeroes the byte sum mod 256. -/
theorem sum_add_checksum (b : List Nat) : (b.sum + checksum b) % 256 = 0 := by
  unfold checksum
  omega

/-- Embeds `decode_str2` consumes at least one byte on success. -/
theorem decode_str2_pos (lang : Option Nat) (ul : Bool) (nm : String) (data : List Nat)
    (p : Nat × StrVal) (h : decode_str2 lang ul nm data = .ok p) : 1 ≤ p.1 := by
  unfold decode_str2 at h
  rcases data with _ | ⟨tl, rest⟩
  · simp at h
  · simp only [List.head?] at h
    split at h
    · cases h
      simp
    · split at h
      · cases h
        simp
      · cases h

/-- The `decode_oem` loop always reports `len(data)` of its exhausted local
buffer — that is, `0` — as the consumed length. -/
theorem decode_oem_go_fst (fuel : Nat) : ∀ (lang : Option Nat) (data : List Nat)
    (acc : List StrVal) (r : Nat × List StrVal), data.length ≤ fuel →
    decode_oem_go lang fuel data acc = .ok r → r.1 = 0 := by
  induction fuel with
  | zero =>
    intro lang data acc r hle h
    have hnil : data = [] := List.length_eq_zero.mp (Nat.le_zero.mp hle)
    subst hnil
    simp only [decode_oem_go] at h
    cases h
    rfl
  | succ n ih =>
    intro lang data acc r hle h
    rcases data with _ | ⟨b, rest⟩
    · simp only [decode_oem_go] at h
      cases h
      rfl
    · simp only [decode_oem_go] at h
      rcases hd : decode_str2 lang true ("oem") (b :: rest) with e | ⟨l, s⟩
      · rw [hd] at h
        cases h
      · rw [hd] at h
        have hl := decode_str2_pos _ _ _ _ _ hd
        refine ih lang _ (s :: acc) r ?_ h
        simp only [List.length_drop, List.length_cons] at *
        omega

/-- Embeds `patch_offset` only overwrites one byte: the length is unchanged. -/
theorem patch_offset_length (hpos pos : Nat) (ret1 ret2 : List Nat)
    (h : patch_offset hpos pos ret1 = .ok ret2) : ret2.length = ret1.length := by
  unfold patch_offset at h
  split at h
  · split at h
    · cases h
    · split at h
      · cases h
      · cases h
        simp
  · cases h
    rfl

/-- The encoder's area loop only appends (and patches single bytes). -/
theorem encode_loop_le (cfg : List (String × AreaValue)) :
    ∀ (areas : List (AreaSpec × Nat)) (n i : Nat) (ret ret' : List Nat),
      encode_loop cfg areas n i ret = .ok ret' → ret.length ≤ ret'.length := by
  intro areas
  induction areas with
  | nil =>
    intro n i ret ret' h
    simp only [encode_loop] at h
    cases h
    exact le_rfl
  | cons a rest ih =>
    intro n i ret ret' h
    obtain ⟨spec, hpos⟩ := a
    simp only [encode_loop] at h
    split at h
    · cases h
    · split at h
      · exact ih n i ret ret' h
      · split at h
        · exact ih n i ret ret' h
        · split at h
          · cases h
          · rename_i body hbody
            split at h
            · cases h
            · rename_i ret2 hpatch
              have h1 := patch_offset_length _ _ _ _ hpatch
              have h2 := ih n (i + 1) ret2 ret' h
              simp only [List.length_append] at h1
              omega

/-- A successful `prepare_header` emits exactly the 8 header bytes. -/
theorem prepare_header_length (h : AreaValue) (r : List Nat)
    (areas : List (AreaSpec × Nat)) (hok : prepare_header h = .ok (r, areas)) :
    r.length = 8 := by
  rcases h with s | m
  · simp [prepare_header] at hok
  · rcases hp : lookupA m ("padding") with _ | ev
    · simp [prepare_header, prepare_header_go, FRU_SPEC, hp] at hok
      simp [← hok.1]
    · rcases ev with n | mi | s | l
      · by_cases hn : n < 256
        · simp [prepare_header, prepare_header_go, FRU_SPEC, hp, hn] at hok
          simp [← hok.1]
        · simp [prepare_header, prepare_header_go, FRU_SPEC, hp, hn] at hok
      · simp [prepare_header, prepare_header_go, FRU_SPEC, hp] at hok
      · simp [prepare_header, prepare_header_go, FRU_SPEC, hp] at hok
      · simp [prepare_header, prepare_header_go, FRU_SPEC, hp] at hok

/-- Setting index 7 and summing the first 8 entries. -/
theorem sum_take8_set7 (l : List Nat) (c : Nat) (h : 8 ≤ l.length) :
    ((l.set 7 c).take 8).sum = (l.take 7).sum + c := by
  rcases l with _ | ⟨a0, l⟩
  · simp at h
  rcases l with _ | ⟨a1, l⟩
  · simp at h
  rcases l with _ | ⟨a2, l⟩
  · simp at h
  rcases l with _ | ⟨a3, l⟩
  · simp at h
  rcases l with _ | ⟨a4, l⟩
  · simp at h
  rcases l with _ | ⟨a5, l⟩
  · simp at h
  rcases l with _ | ⟨a6, l⟩
  · simp at h
  rcases l with _ | ⟨a7, l⟩
  · simp at h
  show (a0 :: a1 :: a2 :: a3 :: a4 :: a5 :: a6 :: c :: l.take 0).sum =
    (a0 :: a1 :: a2 :: a3 :: a4 :: a5 :: a6 :: ([] : List Nat)).sum + c
  simp
  omega

/-- Embeds `getD 1` after setting index 1 and appending one element. -/
theorem getD1_set1_append (r2 : List Nat) (v c : Nat) (h : 2 ≤ r2.length) :
    ((r2.set 1 v) ++ [c]).getD 1 0 = v := by
  rcases r2 with _ | ⟨a, r2⟩
  · simp at h
  rcases r2 with _ | ⟨b, r2⟩
  · simp at h
  rfl

/-! ## Packed-ASCII round-trip lemmas -/

/-- Emitted characters are only appended: the accumulator factors out. -/
theorem emit6_append (bits : Nat) : ∀ (v : Nat) (acc : List Nat),
    Packed.emit6 bits v acc =
      ((Packed.emit6 bits v []).1, (Packed.emit6 bits v []).2.1,
        acc ++ (Packed.emit6 bits v []).2.2) := by
  induction bits using Nat.strong_induction_on with
  | _ bits ih =>
    intro v acc
    by_cases hlt : bits < 6
    · interval_cases bits <;> simp [Packed.emit6]
    · obtain ⟨b, rfl⟩ : ∃ b, bits = b + 6 := ⟨bits - 6, by omega⟩
      simp only [Packed.emit6]
      rw [ih b (by omega) (v >>> 6) (acc ++ [v % 64 + 32]),
          ih b (by omega) (v >>> 6) ([] ++ [v % 64 + 32])]
      simp

/-- Decoded characters are only appended: the accumulator factors out. -/
theorem decGo_append (bs : List Nat) : ∀ (bits v : Nat) (acc : List Nat),
    Packed.decGo bs bits v acc = acc ++ Packed.decGo bs bits v [] := by
  induction bs with
  | nil => intro bits v acc; simp [Packed.decGo]
  | cons b rest ih =>
    intro bits v acc
    simp only [Packed.decGo]
    rw [emit6_append (bits + 8) (v + (b <<< bits)) acc,
        emit6_append (bits + 8) (v + (b <<< bits)) []]
    dsimp only
    rw [ih, ih _ _ ([] ++ (Packed.emit6 (bits + 8) (v + b <<< bits) []).2.2)]
    simp

/-- One `encStep` on a bytearray with a fixed suffix acts on the prefix
only (the suffix is below all bytes the step can touch). -/
theorem encStep_append (bits : Nat) (rev rev0 : List Nat) (code : Nat)
    (hinv : 0 < bits → rev ≠ []) :
    Packed.encStep (bits, rev ++ rev0) code =
      ((Packed.encStep (bits, rev) code).1,
        (Packed.encStep (bits, rev) code).2 ++ rev0) := by
  by_cases hb : 0 < bits
  · obtain ⟨r, rt, rfl⟩ : ∃ r rt, rev = r :: rt := by
      rcases rev with _ | ⟨r, rt⟩
      · exact absurd rfl (hinv hb)
      · exact ⟨r, rt, rfl⟩
    by_cases h2 : bits ≠ 2 <;> simp [Packed.encStep, hb, h2]
  · by_cases h2 : bits ≠ 2 <;> simp [Packed.encStep, hb, h2]

/-- One `encStep` never empties a nonempty bytearray (and fills an empty
one when `bits = 0`). -/
theorem encStep_ne_nil (bits : Nat) (rev : List Nat) (code : Nat)
    (hinv : 0 < bits → rev ≠ []) :
    (Packed.encStep (bits, rev) code).2 ≠ [] := by
  by_cases hb : 0 < bits
  · obtain ⟨r, rt, rfl⟩ : ∃ r rt, rev = r :: rt := by
      rcases rev with _ | ⟨r, rt⟩
      · exact absurd rfl (hinv hb)
      · exact ⟨r, rt, rfl⟩
    by_cases h2 : bits ≠ 2 <;> simp [Packed.encStep, hb, h2]
  · have hb0 : bits = 0 := by omega
    subst hb0
    simp [Packed.encStep]

/-- The encoder's character fold on a bytearray with a fixed suffix acts on
the prefix only. -/
theorem encFold_append (t : List Nat) : ∀ (bits : Nat) (rev rev0 : List Nat),
    (0 < bits → rev ≠ []) →
    List.foldl (fun st ch => Packed.encStep st (ch - 32)) (bits, rev ++ rev0) t =
      ((List.foldl (fun st ch => Packed.encStep st (ch - 32)) (bits, rev) t).1,
        (List.foldl (fun st ch => Packed.encStep st (ch - 32)) (bits, rev) t).2 ++ rev0) := by
  induction t with
  | nil => intro bits rev rev0 _; simp
  | cons ch t ih =>
    intro bits rev rev0 hinv
    simp only [List.foldl_cons]
    rw [encStep_append bits rev rev0 (ch - 32) hinv]
    have hnext := encStep_ne_nil bits rev (ch - 32) hinv
    have := ih (Packed.encStep (bits, rev) (ch - 32)).1
      (Packed.encStep (bits, rev) (ch - 32)).2 rev0 (fun _ => hnext)
    simpa using this

/-- Four in-range characters fold from an aligned state into three bytes. -/
theorem encFold_block (a b c d : Nat) (rev : List Nat)
    (ha : 32 ≤ a) (ha' : a < 96) (hb : 32 ≤ b) (hb' : b < 96)
    (hc : 32 ≤ c) (hc' : c < 96) (hd : 32 ≤ d) (hd' : d < 96) :
    List.foldl (fun st ch => Packed.encStep st (ch - 32)) (0, rev) [a, b, c, d] =
      (0, ((c - 32) / 16 + 4 * (d - 32)) :: ((b - 32) / 4 + 16 * ((c - 32) % 16)) ::
        ((a - 32) + 64 * ((b - 32) % 4)) :: rev) := by
  simp only [List.foldl_cons, List.foldl_nil]
  simp [Packed.encStep, Nat.shiftLeft_eq, Nat.shiftRight_eq_div_pow]
  refine ⟨?_, ?_, ?_⟩ <;> omega

/-- Three bytes decode from an aligned state into four characters and
return to the aligned state. -/
theorem decGo_block (x y z : Nat) (rest acc : List Nat)
    (hx : x < 256) (hy : y < 256) (hz : z < 256) :
    Packed.decGo (x :: y :: z :: rest) 0 0 acc =
      Packed.decGo rest 0 0 (acc ++
        [x % 64 + 32,
         (x / 64 + 4 * y) % 64 + 32,
         ((x / 64 + 4 * y) / 64 + 16 * z) % 64 + 32,
         ((x / 64 + 4 * y) / 64 + 16 * z) / 64 % 64 + 32]) := by
  simp only [Packed.decGo]
  simp [Packed.emit6, Nat.shiftLeft_eq, Nat.shiftRight_eq_div_pow]
  have h0 : ((x / 64 + y * 4) / 64 + z * 16) / 64 / 64 = 0 := by omega
  rw [h0, Nat.mul_comm y 4, Nat.mul_comm z 16]

/-- Specialisation of `encFold_append` to a fold started on a fresh
bytearray. -/
theorem encFold_nil (t : List Nat) (rev0 : List Nat) :
    List.foldl (fun st ch => Packed.encStep st (ch - 32)) (0, rev0) t =
      ((List.foldl (fun st ch => Packed.encStep st (ch - 32)) (0, []) t).1,
        (List.foldl (fun st ch => Packed.encStep st (ch - 32)) (0, []) t).2 ++ rev0) := by
  have := encFold_append t 0 [] rev0 (by simp)
  simpa using this

/-- The packed-ASCII round trip, by strong induction on the length in
blocks of four characters: decoding the packed bytes returns the input,
plus one trailing space exactly when the length is 3 mod 4 (the final
6-bit group of zero padding bits). -/
theorem packedRound_aux (n : Nat) : ∀ (s : List Nat), s.length = n →
    (∀ c ∈ s, 32 ≤ c ∧ c < 96) →
    Packed.decode (Packed.encodeRev s).2.reverse =
      s ++ (if s.length % 4 = 3 then [32] else []) := by
  induction n using Nat.strong_induction_on with
  | _ n ih =>
    intro s hlen hval
    rcases s with _ | ⟨a, s⟩
    · simp [Packed.encodeRev, Packed.decode, Packed.decGo]
    rcases s with _ | ⟨b, s⟩
    · have ha := hval a (by simp)
      simp [Packed.encodeRev, Packed.encStep, Packed.decode, Packed.decGo, Packed.emit6,
        Nat.shiftLeft_eq, Nat.shiftRight_eq_div_pow]
      omega
    rcases s with _ | ⟨c, s⟩
    · have ha := hval a (by simp)
      have hb := hval b (by simp)
      simp [Packed.encodeRev, Packed.encStep, Packed.decode, Packed.decGo, Packed.emit6,
        Nat.shiftLeft_eq, Nat.shiftRight_eq_div_pow]
      omega
    rcases s with _ | ⟨d, t⟩
    · have ha := hval a (by simp)
      have hb := hval b (by simp)
      have hc := hval c (by simp)
      simp [Packed.encodeRev, Packed.encStep, Packed.decode, Packed.decGo, Packed.emit6,
        Nat.shiftLeft_eq, Nat.shiftRight_eq_div_pow]
      omega
    · have ha := hval a (by simp)
      have hb := hval b (by simp)
      have hc := hval c (by simp)
      have hd := hval d (by simp)
      have hval' : ∀ x ∈ t, 32 ≤ x ∧ x < 96 := fun x hx => hval x (by simp [hx])
      have henc : (Packed.encodeRev (a :: b :: c :: d :: t)).2.reverse =
          ((a - 32) + 64 * ((b - 32) % 4)) ::
          ((b - 32) / 4 + 16 * ((c - 32) % 16)) ::
          ((c - 32) / 16 + 4 * (d - 32)) :: (Packed.encodeRev t).2.reverse := by
        unfold Packed.encodeRev
        rw [show (a :: b :: c :: d :: t) = [a, b, c, d] ++ t from rfl, List.foldl_append,
            encFold_block a b c d [] ha.1 ha.2 hb.1 hb.2 hc.1 hc.2 hd.1 hd.2,
            encFold_nil t]
        simp
      unfold Packed.decode
      rw [henc,
          decGo_block _ _ _ _ [] (by omega) (by omega) (by omega),
          decGo_append]
      have hg0 : ((a - 32) + 64 * ((b - 32) % 4)) % 64 + 32 = a := by omega
      have hg1 : (((a - 32) + 64 * ((b - 32) % 4)) / 64 +
          4 * ((b - 32) / 4 + 16 * ((c - 32) % 16))) % 64 + 32 = b := by omega
      have hg2 : ((((a - 32) + 64 * ((b - 32) % 4)) / 64 +
            4 * ((b - 32) / 4 + 16 * ((c - 32) % 16))) / 64 +
          16 * ((c - 32) / 16 + 4 * (d - 32))) % 64 + 32 = c := by omega
      have hg3 : ((((a - 32) + 64 * ((b - 32) % 4)) / 64 +
            4 * ((b - 32) / 4 + 16 * ((c - 32) % 16))) / 64 +
          16 * ((c - 32) / 16 + 4 * (d - 32))) / 64 % 64 + 32 = d := by omega
      rw [hg0, hg1, hg2, hg3]
      have hrec := ih t.length (by simp at hlen; omega) t rfl hval'
      unfold Packed.decode at hrec
      rw [hrec]
      have hmod : (a :: b :: c :: d :: t).length % 4 = t.length % 4 := by
        simp only [List.length_cons]
        omega
      rw [hmod]
      simp

/-! ## Claim theorems -/

/-- Claim C1 (code bug).  On the spec-compliant image `c1buf`, `decode`
produces a tree whose Latin-1 strings carry `encoding = None`
(`ProperLatin1String` derives from `StrWithEncoding`, not `Latin1String`),
so re-encoding the tree raises
`EncoderError("chassis.partno: invalid encoding (None) specified")` instead
of reproducing the bytes: `decode(encode(tree))` cannot succeed. -/
theorem fruit_c1_roundtrip_bug :
    decode true c1buf = .ok c1tree ∧
    encode c1tree = .error (.encoderError (.invalidEncoding ("chassis") ("partno"))) :=
  ⟨rfl, rfl⟩

/-- Claim C2 (counterexample).  A chassis table truncated by an embedded 0xC1
after its first field makes `decode_info_table` fail with
`DecoderError("Entry chassis.partno overlaps ending byte (0xC1)")` — even
under the tolerant policy — rather than defaulting the remaining fields. -/
theorem fruit_c2_counterexample :
    decode_info_table false ("chassis") chassisEntries c2area =
      .error (.decoderError (.overlapsEndingByte ("chassis.") ("partno"))) := rfl

/-- Claim C2 (amended).  When the predefined-field region is exhausted while a
byte, date or string field remains, the table decode raises a
`DecoderError` naming that field as overlapping the ending byte; no
defaults are assigned. -/
theorem fruit_c2_amended (tname : String) (e : EntrySpec) (rest : List EntrySpec)
    (h : e.isOem = false) :
    decode_info_table_inner tname (e :: rest) [] =
      .error (.decoderError (.overlapsEndingByte (tname ++ ".") e.name)) := by
  cases e <;>
    simp_all [decode_info_table_inner, inner_go, decode_entry, decode_byte, decode_date,
      decode_str2, EntrySpec.isOem]

/-- Witness for `fruit_c2_amended` at a concrete field list. -/
theorem fruit_c2_amended_witness :
    decode_info_table_inner ("chassis") [.str ("partno") false] [] =
      .error (.decoderError (.overlapsEndingByte ("chassis.") ("partno"))) :=
  fruit_c2_amended ("chassis") (.str ("partno") false) [] rfl

/-- Claim C3 (confirmed).  If an area's length byte declares more bytes than
remain, table decoding fails with a `DecoderError` under *every* logging
policy; whenever the version byte is the compliant value 1 the error is
precisely "Premature end of data". -/
theorem fruit_c3_premature_end (strict : Bool) (nm : String) (entries : List EntrySpec)
    (data : List Nat) (h2 : 2 ≤ data.length) (hlen : data.length < 8 * data.getD 1 0) :
    (∃ e, decode_info_table strict nm entries data = .error (.decoderError e)) ∧
    (data.getD 0 0 = 1 →
      decode_info_table strict nm entries data = .error (.decoderError (.prematureEnd nm))) := by
  rcases data with _ | ⟨v0, data1⟩
  · simp at h2
  rcases data1 with _ | ⟨v1, rest⟩
  · simp at h2
  have hv1 : (v0 :: v1 :: rest).getD 1 0 = v1 := rfl
  rw [hv1] at hlen
  simp only [List.length_cons] at hlen
  have harea : decode_area_len strict nm (v0 :: v1 :: rest) =
      if v0 ≠ 1 ∧ strict then .error (.decoderError (.badVersion nm v0))
      else .error (.decoderError (.prematureEnd nm)) := by
    unfold decode_area_len
    simp only [List.head?]
    split
    · rfl
    · have h0 : ¬ v1 * 8 = 0 := by omega
      have h1 : ¬ v1 * 8 - 1 < (v0 :: v1 :: rest).length := by
        simp only [List.length_cons]
        omega
      simp [h0, h1]
      omega
  constructor
  · by_cases hv : v0 ≠ 1 ∧ strict
    · refine ⟨.badVersion nm v0, ?_⟩
      unfold decode_info_table
      rw [harea, if_pos hv]
    · refine ⟨.prematureEnd nm, ?_⟩
      unfold decode_info_table
      rw [harea, if_neg hv]
  · intro h1
    have hv : ¬ (v0 ≠ 1 ∧ strict) := by
      simp only [List.getD] at h1
      simp [show v0 = 1 from h1]
    unfold decode_info_table
    rw [harea, if_neg hv]

/-- Witness for `fruit_c3_premature_end`: a 4-byte area declaring 40
bytes. -/
theorem fruit_c3_witness :
    decode_info_table true ("chassis") [] [1, 5, 0, 0] =
      .error (.decoderError (.prematureEnd ("chassis"))) :=
  (fruit_c3_premature_end true ("chassis") [] [1, 5, 0, 0] (by decide) (by decide)).2 rfl

/-- Claim C4 (counterexample).  `encode` accepts an internal-use area given as
a pre-encoded hex blob without validating its checksum: the produced area
span (offset 8, declared length `8 * out[9]`) sums to 2 mod 256, not 0. -/
theorem fruit_c4_counterexample :
    encode c4cfg = .ok c4out ∧
    ((c4out.drop 8).take (8 * c4out.getD 9 0)).sum % 256 ≠ 0 :=
  ⟨rfl, by decide⟩

/-- Claim C4 (amended).  For every configuration `encode` accepts, the base
header sums to 0 mod 256 over its 8-byte span (checksum byte included);
and every area produced by the structured `encode_info_table` path sums to
0 mod 256 over its declared span (`8 * area[1]`, which equals its 8-byte
aligned length).  Areas supplied as pre-encoded `hex:` blobs are emitted
verbatim and may violate the checksum invariant (`fruit_c4_counterexample`). -/
theorem fruit_c4_amended :
    (∀ (cfg : List (String × AreaValue)) (out : List Nat),
        encode cfg = .ok out → (out.take 8).sum % 256 = 0) ∧
    (∀ (spec : AreaSpec) (acfg : AreaValue) (bs : List Nat),
        encode_info_table spec acfg = .ok bs →
          bs.sum % 256 = 0 ∧ bs.length % 8 = 0 ∧ 8 * bs.getD 1 0 = bs.length) := by
  constructor
  · intro cfg out h
    unfold encode at h
    split at h
    · cases h
    · rename_i ret0 areas hprep
      split at h
      · cases h
      · rename_i ret hloop
        cases h
        have h80 : ret0.length = 8 := prepare_header_length _ _ _ hprep
        have h8 : 8 ≤ ret.length := h80 ▸ encode_loop_le cfg areas areas.length 0 ret0 ret hloop
        rw [sum_take8_set7 ret _ h8]
        exact sum_add_checksum _
  · intro spec acfg bs h
    unfold encode_info_table at h
    split at h
    · rename_i nm entries m
      split at h
      · cases h
      · rename_i body hbody
        dsimp only at h
        split at h
        · cases h
        · rename_i v hv
          split at h
          · cases h
          · cases h
            unfold div8 at hv
            split at hv
            · rename_i hmod
              cases hv
              have hlen2 : 2 ≤ (pad7 (1 :: 0 :: (body ++ [0xc1]))).length := by
                simp [pad7]
              refine ⟨?_, ?_, ?_⟩
              · rw [show ∀ (r : List Nat) (c : Nat), (r ++ [c]).sum = r.sum + c by
                  intro r c; simp]
                exact sum_add_checksum _
              · simp only [List.length_append, List.length_set, List.length_cons,
                  List.length_nil]
                omega
              · rw [getD1_set1_append _ _ _ hlen2]
                simp only [List.length_append, List.length_set, List.length_cons,
                  List.length_nil]
                omega
            · cases hv
    · cases h

/-- Witness for `fruit_c4_amended`: the header of `encode c4cfg`, and the
chassis table `{type: 2}` encoded through `encode_info_table`. -/
theorem fruit_c4_amended_witness :
    ((c4out.take 8).sum % 256 = 0) ∧
    (([1, 1, 2, 192, 192, 193, 0, 187] : List Nat).sum % 256 = 0 ∧
      ([1, 1, 2, 192, 192, 193, 0, 187] : List Nat).length % 8 = 0 ∧
      8 * ([1, 1, 2, 192, 192, 193, 0, 187] : List Nat).getD 1 0 =
        ([1, 1, 2, 192, 192, 193, 0, 187] : List Nat).length) :=
  ⟨fruit_c4_amended.1 c4cfg c4out rfl,
   fruit_c4_amended.2 (.infoTable ("chassis") chassisEntries)
     (.table [(("type"), .int 2)]) [1, 1, 2, 192, 192, 193, 0, 187] rfl⟩

/-- Claim C5 (counterexample).  `unpack(pack("A"))` is `"A"`, not
`"A   "`: a single character packs into one byte whose two spare bits are
dropped on decode, so no space padding appears (padding to a multiple of 4
happens only for lengths ≡ 3 mod 4). -/
theorem fruit_c5_counterexample :
    Packed.encode [65] = .ok [33] ∧ Packed.decode [33] = [65] ∧
      ([65] : List Nat) ≠ [65, 32, 32, 32] :=
  ⟨rfl, rfl, by decide⟩

/-- Claim C5 (amended).  For every string of characters in `[0x20, 0x60)`,
`unpack(pack(s))` returns `s` itself when `len(s) % 4 ∈ {0, 1, 2}`, and
`s` plus exactly one trailing space when `len(s) % 4 = 3` (the final 6-bit
group consisting of zero padding bits). -/
theorem fruit_c5_amended (s : List Nat) (hval : ∀ c ∈ s, 32 ≤ c ∧ c < 96) :
    ∃ bs, Packed.encode s = .ok bs ∧
      Packed.decode bs = s ++ (if s.length % 4 = 3 then [32] else []) := by
  refine ⟨(Packed.encodeRev s).2.reverse, ?_, ?_⟩
  · unfold Packed.encode
    rw [if_pos]
    rw [List.all_eq_true]
    intro c hc
    have := hval c hc
    simp only [Bool.and_eq_true, decide_eq_true_eq]
    omega
  · exact packedRound_aux s.length s rfl hval

/-- Witness for `fruit_c5_amended` at the 3-character string "ABC". -/
theorem fruit_c5_amended_witness :
    ∃ bs, Packed.encode [65, 66, 67] = .ok bs ∧
      Packed.decode bs = [65, 66, 67] ++
        (if ([65, 66, 67] : List Nat).length % 4 = 3 then [32] else []) :=
  fruit_c5_amended [65, 66, 67] (by decide)

/-- Claim C6 (counterexample).  A type-3 string field of a language-dependent
spec decoded under the English language yields `lang_disagree = False`
(`ProperLatin1String`), not a set disagreement flag as claimed. -/
theorem fruit_c6_counterexample :
    (decode_str2 (some 0) true ("asset") [194, 65, 66]).map (fun r => r.2.disagree) =
      .ok (some false) := rfl

/-- Claim C6 (amended).  Whenever the encoding-type bits are 3 and the field
is not language-dependent or the effective language is English, the bytes
decode as 8-bit Latin-1 into a `ProperLatin1String` — `lang_disagree` is
`False` (and the `encoding` attribute is `None`) — and decoding does not
fail. -/
theorem fruit_c6_amended (lang : Option Nat) (ul : Bool) (nm : String) (tl : Nat)
    (data : List Nat) (ht : tl / 64 = 3)
    (hcond : ul = false ∨ isEnglish lang = true) :
    decode_str2 lang ul nm (tl :: data) =
      .ok (tl % 64 + 1, .tagged (data.take (tl % 64)) none (some false)) := by
  unfold decode_str2
  simp only [List.head?]
  have hts : (tl - tl % 64) >>> 6 = 3 := by
    rw [Nat.shiftRight_eq_div_pow]
    omega
  rw [hts]
  have hc : (ul && 3 == 3 && !(isEnglish lang)) = false := by
    rcases hcond with h | h <;> simp [h]
  rw [hc]
  simp [strDecoderAt]

/-- Witness for `fruit_c6_amended` at a concrete type-3 field. -/
theorem fruit_c6_amended_witness :
    decode_str2 (some 0) true ("asset") [194, 65, 66] =
      .ok (3, .tagged [65, 66] none (some false)) :=
  fruit_c6_amended (some 0) true ("asset") 194 [65, 66] (by decide) (Or.inr rfl)

/-- Claim C7 (code bug).  Supplying the structured `chassis` area as a
pre-encoded `hex:` blob crashes `encode` with an `AssertionError`: the
dispatch tests `isinstance(cfg, dict)` on the whole configuration (always a
mapping), so every `InfoTable` area reaches `encode_info_table`, whose
`assert isinstance(cfg, dict)` fails on the string. -/
theorem fruit_c7_hex_bypass_crash :
    encode [(("chassis"), AreaValue.hexstr (strCps ("hex:0101000000000000")))] =
      .error .assertionError := rfl

/-- Claim C8 (confirmed).  Whenever the chosen encoder yields a payload over
64 bytes, `encode_str` raises `EncoderError("<area>.<field>: too many bytes
(<count>)")` — the structured message carries the dotted prefix, the field
name and the byte count. -/
theorem fruit_c8_too_many_bytes (pfx nm : String) (cfg : Option EntryValue)
    (lang : Option Nat) (tag : StrTag) (t : Nat) (b : List Nat)
    (henc : (encode_str_choose cfg lang).2 = some tag)
    (hb : strEncodeTag tag (encode_str_choose cfg lang).1 = .ok (t, b))
    (hlen : 64 < b.length) :
    encode_str pfx nm cfg lang = .error (.encoderError (.tooManyBytes pfx nm b.length)) := by
  unfold encode_str
  simp only [henc]
  simp only [hb]
  simp [hlen]

/-- Witness for `fruit_c8_too_many_bytes`: a 70-character product name. -/
theorem fruit_c8_witness :
    encode_str ("product") ("name") (some (.str (.plain (List.replicate 70 65)))) (some 0) =
      .error (.encoderError (.tooManyBytes ("product") ("name") 70)) :=
  fruit_c8_too_many_bytes ("product") ("name")
    (some (.str (.plain (List.replicate 70 65)))) (some 0) .latin1 3
    (List.replicate 70 65) rfl rfl (by decide)

/-- Claim C9 (code bug).  `decode_oem` always reports 0 consumed bytes; as a
result the enclosing table decode does *not* end with an empty remainder
when the OEM region is nonempty — its `assert len(data) == 0` fails, and
decoding the compliant image `c9buf` (one OEM string) dies with an
`AssertionError`. -/
theorem fruit_c9_oem_misreport :
    (∀ (lang : Option Nat) (data : List Nat) (r : Nat × List StrVal),
        decode_oem lang data = .ok r → r.1 = 0) ∧
    decode false c9buf = .error .assertionError := by
  constructor
  · intro lang data r h
    exact decode_oem_go_fst data.length lang data [] r le_rfl h
  · rfl

/-- Witness for `fruit_c9_oem_misreport` at a concrete OEM region. -/
theorem fruit_c9_witness :
    decode_oem (some 0) [194, 69, 70] =
      .ok (0, [.tagged [69, 70] none (some false)]) ∧
    ((0 : Nat), [StrVal.tagged [69, 70] none (some false)]).1 = 0 :=
  ⟨rfl, fruit_c9_oem_misreport.1 (some 0) [194, 69, 70]
    (0, [.tagged [69, 70] none (some false)]) rfl⟩

/-- Claim C10 (confirmed).  A string whose encoding yields exactly 64 bytes
passes the `> 64` guard: for type 3 (a 32-character UCS-2LE value) the
header byte `(3<<6)+64 = 256` overflows `bytearray` and the encode dies
with an unhandled `ValueError`; for type 0 (128 hex digits) the emitted
header byte is 64 = type 1, length 0 — inconsistent with the 64-byte
payload that follows. -/
theorem fruit_c10_len64_overflow :
    encode_str ("product") ("name")
        (some (.str (.tagged (List.replicate 32 65) (some .ucs2le) none))) (some 0) =
      .error .valueError ∧
    encode_str ("product") ("name")
        (some (.str (.tagged (List.replicate 128 48) (some .hex) none))) (some 0) =
      .ok (64 :: List.replicate 64 0) :=
  ⟨rfl, rfl⟩

end Fruit
